import Mathlib

/-!
Formal model of the janus-agent runtime (TypeScript source), shallowly
embedded in Lean 4.  Every definition mirrors one function or data type of
the source repository; the theorems at the end of the file state the
specification claims over these definitions and settle them.  Machine
numbers are modelled as `Nat`/`Int`/`Rat` (JavaScript numbers never
overflow in the relevant ranges); floating-point `Math.pow` in the memory
ranking is idealised as real exponentiation.
-/

namespace Janus

/-! ### Shared list helper: `Array.prototype.slice(-n)` on a list -/

/-- JavaScript `list.slice(-n)` for `n > 0`: the last `n` elements. -/
def takeLast {α : Type} (l : List α) (n : ℕ) : List α :=
  l.drop (l.length - n)

/-! ### LLM messages (src/llm/types.ts)

The source models a message as a union of four variants
(system / user / assistant + optional tool_calls / tool + tool_call_id).
We flatten it into one structure: `toolCalls` is empty except on an
assistant message carrying tool invocations, `toolCallId` is `none`
except on a tool-result message. -/

inductive Role
  | system
  | user
  | assistant
  | tool
deriving DecidableEq, Repr

structure ToolCall where
  id : String
  name : String
  arguments : String
deriving DecidableEq, Repr

structure LLMMessage where
  role : Role
  content : String
  toolCalls : List ToolCall := []
  toolCallId : Option String := none
deriving DecidableEq, Repr

/-! ### Agent loop: overflow detection and emergency compression
(`AgentLoop.iterate`, agent-loop source) -/

/-- ASCII lowering of a string, mirroring `String.prototype.toLowerCase`
on the ASCII inputs the overflow regex cares about. -/
def lowerStr (s : String) : String := String.mk (s.toList.map Char.toLower)

/-- Character-level `startsWith` (JavaScript `String.prototype.startsWith`). -/
def startsWithStr (s pre : String) : Bool := pre.toList.isPrefixOf s.toList

/-- Substring test: does `pat` occur inside `hay`? -/
def containsSub (hay pat : String) : Bool :=
  hay.toList.tails.any (fun t => pat.toList.isPrefixOf t)

/-- Mirrors the overflow test of the iteration loop:
`/token|context|length|too long/i.test(errorText)`. -/
def isContextError (errorText : String) : Bool :=
  let l := lowerStr errorText
  containsSub l "token" || containsSub l "context" ||
    containsSub l "length" || containsSub l "too long"

/-- Emergency compression step of `AgentLoop.iterate`:

    const nonSystem = messages.slice(1);
    const half = Math.floor(nonSystem.length / 2);
    const kept = nonSystem.slice(Math.max(half, nonSystem.length - 2));
    messages = [messages[0], ...kept];

`Nat` truncated subtraction agrees with the JavaScript `Math.max` against
a possibly negative `nonSystem.length - 2`.  (The loop only reaches this
code with a non-empty `messages`, whose head is the system prompt.) -/
def emergencyCompress : List LLMMessage → List LLMMessage
  | [] => []
  | sys :: nonSystem =>
    let half := nonSystem.length / 2
    sys :: nonSystem.drop (max half (nonSystem.length - 2))

/-! ### Session store (src/session/session-manager.ts) -/

structure SessionMetadata where
  key : String
  created : String
  updated : String
  messageCount : ℕ
  summary : Option String := none
deriving DecidableEq, Repr

structure Session where
  metadata : SessionMetadata
  messages : List LLMMessage
deriving DecidableEq, Repr

/-- State transform of `SessionManager.summarize(key, summaryText)` on the
cached session.  The returned flag records whether `save` was invoked
(the persistence step).  Mirrors:

    if (session.messages.length <= 8) return;     // nothing to summarize
    session.messages = session.messages.slice(-4);
    session.metadata.summary = summaryText;
    session.metadata.messageCount = session.messages.length;
    await this.save(key, session); -/
def summarize (s : Session) (summaryText : String) : Session × Bool :=
  if s.messages.length ≤ 8 then (s, false)
  else
    let kept := takeLast s.messages 4
    ({ metadata := { s.metadata with
          summary := some summaryText, messageCount := kept.length },
       messages := kept }, true)

/-! ### Scheduler next-run computation (`CronService.computeNextRun`)

Only the `every` branch is relevant to the claims; `scheduleValue` is
taken after `parseInt` (the `isNaN` branch, i.e. an unparseable value,
corresponds to inputs outside the premise of the claim and is folded into the
`intervalMs ≤ 0 → none` guard below, matching
`if (isNaN(intervalMs) || intervalMs <= 0) return null`).  Timestamps are
epoch milliseconds as integers. -/

def computeNextRunEvery (now intervalMs : ℤ) (lastRunAt : Option ℤ) : Option ℤ :=
  if intervalMs ≤ 0 then none
  else some (lastRunAt.getD now + intervalMs)

/-! ### Scheduler `executeJob` statement trace (`CronService.executeJob`)

We model the database interaction of `executeJob` as the sequence of
statement-level events it issues.  `better-sqlite3` runs each bare
`prepare(...).run(...)` as its own implicit transaction; an explicit
transaction (as used by `MemoryIndex.indexFile` via `db.transaction`)
would surround its statements with begin/commit events.  A crash point
after `k` events applies exactly the statements already executed outside
an uncommitted transaction. -/

inductive DbStmt
  | updateJobOk
  | insertRunOk
  | updateJobErr
  | insertRunErr
deriving DecidableEq, Repr

inductive DbEvent
  | beginTx
  | commitTx
  | runStmt (stmt : DbStmt)
deriving DecidableEq, Repr

/-- Event trace of `executeJob`: the success path issues the job-row
UPDATE then the cron_runs INSERT as two bare statements; the error path
does the same with the error-variant statements.  No begin/commit events
occur (the source does not wrap the pair in `db.transaction`). -/
def executeJobTrace (ok : Bool) : List DbEvent :=
  if ok then [DbEvent.runStmt DbStmt.updateJobOk, DbEvent.runStmt DbStmt.insertRunOk]
  else [DbEvent.runStmt DbStmt.updateJobErr, DbEvent.runStmt DbStmt.insertRunErr]

structure TxState where
  committed : List DbStmt
  pending : Option (List DbStmt)
deriving DecidableEq, Repr

/-- One database event against the durable/pending state: statements run
inside an open transaction are only durable at commit; statements run
outside any transaction are durable immediately. -/
def stepEvent (st : TxState) : DbEvent → TxState
  | DbEvent.beginTx => { st with pending := some [] }
  | DbEvent.commitTx =>
    match st.pending with
    | some l => { committed := st.committed ++ l, pending := none }
    | none => st
  | DbEvent.runStmt s =>
    match st.pending with
    | some l => { st with pending := some (l ++ [s]) }
    | none => { st with committed := st.committed ++ [s] }

/-- Statements durably applied if the process crashes after the first `k`
events of the trace (an uncommitted pending transaction is lost). -/
def appliedAtCrash (t : List DbEvent) (k : ℕ) : List DbStmt :=
  ((t.take k).foldl stepEvent { committed := [], pending := none }).committed

/-- Statements applied by the complete trace. -/
def applied (t : List DbEvent) : List DbStmt := appliedAtCrash t t.length

/-- A trace is atomic when every crash point leaves either nothing or the
full effect. -/
def AtomicTrace (t : List DbEvent) : Prop :=
  ∀ k, k ≤ t.length → appliedAtCrash t k = [] ∨ appliedAtCrash t k = applied t

/-! ### Tool registry (src/tools/tool-registry.ts)

`execute(name, args)` is modelled as a pure function of the registered
tools (an association list; registration keeps names unique), the
optional gate pair, and the optional injected context.  A tool body is a
function returning `Except`: `Except.error` models a thrown exception,
which the registry normalises to a leading `Error:` string.  The gate
confirmation service is modelled by the boolean it resolves to.
`ExecOutcome.invoked` records whether the underlying tool body ran. -/

structure ToolCtx where
  chatId : Option String := none
  userId : Option String := none
  userToolAllow : Option (List String) := none
  userToolDeny : Option (List String) := none

structure ToolImpl (A : Type) where
  run : A → Except String String

structure GateSpec (A : Type) where
  shouldGate : String → A → Bool
  formatAction : String → A → String
  confirmResult : Bool

structure ExecOutcome where
  result : String
  invoked : Bool
deriving DecidableEq, Repr

def joinComma : List String → String
  | [] => ""
  | [x] => x
  | x :: xs => x ++ ", " ++ joinComma xs

def unknownToolMsg (names : List String) (name : String) : String :=
  "Error: Unknown tool \"" ++ name ++ "\". Available tools: " ++ joinComma names

def userDenyMsg (name : String) : String :=
  "Error: Tool \"" ++ name ++ "\" is not available for this user."

def gateDenyMsg (action : String) : String :=
  "Action denied by user: " ++ action

def lookupTool {A : Type} (tools : List (String × ToolImpl A)) (name : String) :
    Option (ToolImpl A) :=
  match tools with
  | [] => none
  | (n, t) :: rest => if n == name then some t else lookupTool rest name

def runTool {A : Type} (tool : ToolImpl A) (args : A) : ExecOutcome :=
  match tool.run args with
  | Except.ok r => ⟨r, true⟩
  | Except.error m => ⟨"Error: " ++ m, true⟩

/-- Condition of `if (this.currentContext?.userToolAllow &&
!this.currentContext.userToolAllow.includes(name))`. -/
def allowBlocked (ctx : Option ToolCtx) (name : String) : Bool :=
  match ctx with
  | some c =>
    match c.userToolAllow with
    | some al => !(al.contains name)
    | none => false
  | none => false

/-- Condition of `if (this.currentContext?.userToolDeny?.includes(name))`. -/
def denyBlocked (ctx : Option ToolCtx) (name : String) : Bool :=
  match ctx with
  | some c =>
    match c.userToolDeny with
    | some dl => dl.contains name
    | none => false
  | none => false

/-- Mirrors `ToolRegistry.execute`: unknown-tool error, then per-user
allow list, then per-user deny list, then the gate confirmation, and only
then the tool body. -/
def registryExecute {A : Type} (tools : List (String × ToolImpl A))
    (gate : Option (GateSpec A)) (ctx : Option ToolCtx)
    (name : String) (args : A) : ExecOutcome :=
  match lookupTool tools name with
  | none => ⟨unknownToolMsg (tools.map (fun p => p.1)) name, false⟩
  | some tool =>
    if allowBlocked ctx name then ⟨userDenyMsg name, false⟩
    else if denyBlocked ctx name then ⟨userDenyMsg name, false⟩
    else
      match gate with
      | some g =>
        if g.shouldGate name args then
          if g.confirmResult then runTool tool args
          else ⟨gateDenyMsg (g.formatAction name args), false⟩
        else runTool tool args
      | none => runTool tool args

/-! ### Tool-call retry loop of `AgentLoop.iterate`

    let rawResult = await this.deps.tools.execute(name, args);
    for (let attempt = 1; attempt < maxRetries && rawResult.startsWith("Error:"); attempt++) {
      await sleep(500 * attempt);
      rawResult = await this.deps.tools.execute(name, args);
    }
    const result = truncateToolResult(rawResult);

`execOnce i` is the result of the (i+1)-th registry invocation.  The
loop guard `attempt < maxRetries` is replicated by running the body with
fuel `maxRetries - 1` starting at attempt 1.  `RetryResult` records the
final raw result, the total number of registry invocations, and the list
of sleep durations in order. -/

structure RetryResult where
  result : String
  invocations : ℕ
  sleeps : List ℕ
deriving DecidableEq, Repr

def retryGo (execOnce : ℕ → String) : ℕ → ℕ → String → List ℕ → RetryResult
  | 0, attempt, r, sleeps => ⟨r, attempt, sleeps⟩
  | fuel + 1, attempt, r, sleeps =>
    if startsWithStr r "Error:" then
      retryGo execOnce fuel (attempt + 1) (execOnce attempt) (sleeps ++ [500 * attempt])
    else ⟨r, attempt, sleeps⟩

def runToolRetries (maxRetries : ℕ) (execOnce : ℕ → String) : RetryResult :=
  retryGo execOnce (maxRetries - 1) 1 (execOnce 0) []

/-- Mirrors `truncateToolResult` (MAX_TOOL_RESULT_CHARS = 4000). -/
def truncateToolResult (result : String) : String :=
  if result.length ≤ 4000 then result
  else
    result.take 2000 ++ "\n\n[... truncated " ++ toString (result.length - 4000) ++
      " characters ...]\n\n" ++ result.takeRight 2000

/-- Content of the tool-result message fed back to the model. -/
def toolResultContent (maxRetries : ℕ) (execOnce : ℕ → String) : String :=
  truncateToolResult (runToolRetries maxRetries execOnce).result

/-! ### Learner (src/learner/learner.ts, src/learner/sqlite-storage.ts) -/

inductive Outcome
  | success
  | error
  | maxIterations
deriving DecidableEq, Repr

structure ExecutionRecord where
  task : String
  duration : ℚ
  iterations : ℚ
  toolCalls : ℚ
  tokenUsage : ℚ
  outcome : Outcome
  timestamp : String
deriving DecidableEq, Repr

/-- Character class of the token regex after lowering: `[a-z0-9]`. -/
def isWordChar (c : Char) : Bool :=
  (97 ≤ c.toNat && c.toNat ≤ 122) || (48 ≤ c.toNat && c.toNat ≤ 57)

def splitWordsAux : List Char → List Char → List (List Char)
  | [], acc => if acc.isEmpty then [] else [acc.reverse]
  | c :: cs, acc =>
    if isWordChar c then splitWordsAux cs (c :: acc)
    else if acc.isEmpty then splitWordsAux cs []
    else acc.reverse :: splitWordsAux cs []

/-- Mirrors `extractKeywords`: lowercase, replace `[^a-z0-9\s]` by
spaces, split on whitespace, keep words of length > 2.  Replacing every
non-alphanumeric character by a separator and taking maximal
alphanumeric runs is equivalent to the regex pipeline (tokens produced
by `split(/\s+/)` on the space-substituted string are exactly the
maximal alphanumeric runs, plus possibly an empty leading token that the
length filter removes). -/
def extractKeywords (text : String) : List String :=
  let words := splitWordsAux (text.toList.map Char.toLower) []
  (words.map (fun w => String.mk w)).filter (fun w => 2 < w.length)

/-- Mirrors `computeOverlap`: count (with multiplicity on the query
side) of query keywords occurring among the record keywords. -/
def computeOverlap (a b : List String) : ℕ :=
  (a.filter (fun w => b.contains w)).length

def overlapWith (task : String) (r : ExecutionRecord) : ℕ :=
  computeOverlap (extractKeywords task) (extractKeywords r.task)

structure ScoredRec where
  score : ℕ
  record : ExecutionRecord
deriving DecidableEq, Repr

/-- The comparator `(a, b) => b.score - a.score` of `findSimilar` sorts
descending by score; `Array.prototype.sort` is stable, which
`List.mergeSort` models exactly. -/
def scoreDescLe (a b : ScoredRec) : Bool := decide (b.score ≤ a.score)

/-- Scored and sorted ranking of `findSimilar` before `slice(0, limit)`:
map to overlap scores, drop non-positive scores, stable-sort descending.
The records list is the storage contents in `getAll` order
(`SELECT * FROM learner_records ORDER BY timestamp`, i.e. ascending
timestamp). -/
def findSimilarRanking (task : String) (records : List ExecutionRecord) :
    List ExecutionRecord :=
  let keywords := extractKeywords task
  let scored := records.map (fun r => ScoredRec.mk (computeOverlap keywords (extractKeywords r.task)) r)
  ((scored.filter (fun s => decide (0 < s.score))).mergeSort scoreDescLe).map
    (fun s => s.record)

/-- Mirrors `SkillLearner.findSimilar(task, limit)`.  With no query
keywords it falls back to `records.slice(-limit)` (for `limit = 0`,
JavaScript `slice(-0)` is the whole list). -/
def findSimilar (task : String) (limit : ℕ) (records : List ExecutionRecord) :
    List ExecutionRecord :=
  if (extractKeywords task).isEmpty then
    if limit = 0 then records else takeLast records limit
  else (findSimilarRanking task records).take limit

/-- JavaScript `Math.round`: round half toward positive infinity. -/
def jsRound (q : ℚ) : ℤ := ⌊q + 1 / 2⌋

def round1 (q : ℚ) : ℚ := (jsRound (q * 10) : ℚ) / 10

def round2 (q : ℚ) : ℚ := (jsRound (q * 100) : ℚ) / 100

def avgQ (xs : List ℚ) : ℚ := xs.sum / (xs.length : ℚ)

structure Recommendation where
  avgDuration : ℚ
  avgIterations : ℚ
  avgToolCalls : ℚ
  successRate : ℚ
  sampleSize : ℕ
deriving DecidableEq, Repr

/-- Aggregation step of `SkillLearner.getRecommendations` over the
similar records. -/
def recommendationOf (similar : List ExecutionRecord) : Option Recommendation :=
  if similar.length = 0 then none
  else
    some
      { avgDuration := (jsRound (avgQ (similar.map (fun r => r.duration))) : ℚ)
        avgIterations := round1 (avgQ (similar.map (fun r => r.iterations)))
        avgToolCalls := round1 (avgQ (similar.map (fun r => r.toolCalls)))
        successRate :=
          round2 (((similar.filter (fun r => r.outcome == Outcome.success)).length : ℚ) /
            (similar.length : ℚ))
        sampleSize := similar.length }

/-- Mirrors `SkillLearner.getRecommendations(task)`: aggregate over
`findSimilar(task, 10)`. -/
def getRecommendations (task : String) (records : List ExecutionRecord) :
    Option Recommendation :=
  recommendationOf (findSimilar task 10 records)

/-! ### Memory index (memory-index source: `search`, `hybridSearch`,
`filterByScope`)

A candidate row is a row of the FTS join
(`mc.source, mc.heading, mc.content, mc.updated_at, mc.owner, mc.scope,
mc.scope_id, bm25(...)`).  `updatedAt` is epoch milliseconds; `bm25` is
the raw SQLite score, negative for actual matches (the source comments:
"BM25 returns negative values (lower = better match)"). -/

structure MemChunkRow where
  source : String
  heading : String
  content : String
  updatedAt : ℚ
  bm25 : ℚ
  owner : String
  scope : String
  scopeId : Option String
deriving DecidableEq, Repr

structure ScopeFilter where
  kind : String
  id : String
deriving DecidableEq, Repr

/-- JavaScript truthiness of an optional string (`undefined` and the
empty string are falsy). -/
def truthyOpt : Option String → Bool
  | some s => !(s == "")
  | none => false

/-- Predicate of `MemoryIndex.filterByScope` on one chunk, with the
branch order of the source: shared+global always passes; under a `user` scope
with a truthy user id only the private chunks owned by the user pass; under a
`family` scope only the shared chunks of the family pass; anything else is
dropped. -/
def chunkVisible (userId : Option String) (sf : ScopeFilter) (c : MemChunkRow) : Bool :=
  if c.owner == "shared" && c.scope == "global" then true
  else if sf.kind == "user" && truthyOpt userId then
    match userId with
    | some u => c.owner == u && c.scope == "user" && c.scopeId == some u
    | none => false
  else if sf.kind == "family" then
    c.owner == "shared" && c.scope == "family" && c.scopeId == some sf.id
  else false

/-- Mirrors `MemoryIndex.filterByScope`: without a scope filter all
chunks are visible (backward compatibility). -/
def filterByScope (chunks : List MemChunkRow) (userId : Option String)
    (scopeFilter : Option ScopeFilter) : List MemChunkRow :=
  match scopeFilter with
  | none => chunks
  | some sf => chunks.filter (chunkVisible userId sf)

/-- The visibility property claimed for a `user`-scoped search. -/
def userScopeOk (u : String) (c : MemChunkRow) : Prop :=
  (c.owner = "shared" ∧ c.scope = "global") ∨
    (c.owner = u ∧ c.scope = "user" ∧ c.scopeId = some u)

/-- 30-day half life in milliseconds. -/
def HALF_LIFE_MS : ℚ := 2592000000

/-- Temporal decay of `MemoryIndex.search`:
`isEvergreen ? 1.0 : Math.pow(0.5, ageMs / HALF_LIFE_MS)` with
`ageMs = now - updated_at`, idealised over the reals. -/
noncomputable def decayOf (now : ℚ) (c : MemChunkRow) : ℝ :=
  if c.source == "MEMORY.md" then 1
  else (1 / 2 : ℝ) ^ (((now - c.updatedAt : ℚ) : ℝ) / (HALF_LIFE_MS : ℝ))

/-- Final score of a candidate: `(-bm25_score) * decay`. -/
noncomputable def finalScore (now : ℚ) (c : MemChunkRow) : ℝ :=
  ((-c.bm25 : ℚ) : ℝ) * decayOf now c

/-- Relational model of `scored.sort((a, b) => b.finalScore - a.finalScore)`:
`out` is a permutation of the input that is pairwise descending in the
score.  (The real-valued comparator is not decidable, so the sort is
embedded as the relation every correct run of it satisfies.) -/
def RankedBy {α : Type} (score : α → ℝ) (out l : List α) : Prop :=
  l.Perm out ∧ out.Pairwise (fun a b => score b ≤ score a)

/-! #### Reciprocal Rank Fusion of `hybridSearch`

JavaScript `Map` iterates in insertion order and `Map.set` on an
existing key updates the value in place; both are modelled by
association lists.  The final `.map(([key]) => chunkMap.get(key)!)` is
modelled with `filterMap` over the lookup (the lookup always succeeds,
since every scored key was inserted into the chunk map). -/

structure ChunkView where
  source : String
  heading : String
  content : String
deriving DecidableEq, Repr

def viewOf (c : MemChunkRow) : ChunkView := ⟨c.source, c.heading, c.content⟩

def keyOf (v : ChunkView) : String := v.source ++ ":" ++ v.heading

/-- `scores.set(key, (scores.get(key) ?? 0) + d)` on an insertion-ordered
map. -/
def bumpScore (scores : List (String × ℚ)) (key : String) (d : ℚ) :
    List (String × ℚ) :=
  match scores with
  | [] => [(key, d)]
  | (k, s) :: rest =>
    if k == key then (k, s + d) :: rest else (k, s) :: bumpScore rest key d

/-- `chunkMap.set(key, v)` (unconditional overwrite, insertion order kept). -/
def setChunk (m : List (String × ChunkView)) (key : String) (v : ChunkView) :
    List (String × ChunkView) :=
  match m with
  | [] => [(key, v)]
  | (k, w) :: rest =>
    if k == key then (k, v) :: rest else (k, w) :: setChunk rest key v

def hasKey (m : List (String × ChunkView)) (key : String) : Bool :=
  m.any (fun p => p.1 == key)

/-- `if (!chunkMap.has(key)) chunkMap.set(key, v)`. -/
def setChunkIfAbsent (m : List (String × ChunkView)) (key : String)
    (v : ChunkView) : List (String × ChunkView) :=
  if hasKey m key then m else m ++ [(key, v)]

def lookupAssoc (m : List (String × ChunkView)) (key : String) : Option ChunkView :=
  match m with
  | [] => none
  | (k, v) :: rest => if k == key then some v else lookupAssoc rest key

/-- Reciprocal Rank Fusion step of `hybridSearch` (k = 60): each branch
contributes `1 / (k + rank + 1)` per item, keys are sorted by fused score
(stable descending) and the top `limit` chunks are returned. -/
def rrfFuse (fts vec : List ChunkView) (limit : ℕ) : List ChunkView :=
  let scores1 := fts.enum.foldl
    (fun acc p => bumpScore acc (keyOf p.2) (1 / (60 + (p.1 : ℚ) + 1))) []
  let cmap1 := fts.foldl (fun acc c => setChunk acc (keyOf c) c) []
  let scores2 := vec.enum.foldl
    (fun acc p => bumpScore acc (keyOf p.2) (1 / (60 + (p.1 : ℚ) + 1))) scores1
  let cmap2 := vec.foldl (fun acc c => setChunkIfAbsent acc (keyOf c) c) cmap1
  ((scores2.mergeSort (fun a b => decide (b.2 ≤ a.2))).take limit).filterMap
    (fun p => lookupAssoc cmap2 p.1)

/-! ### Concrete fixtures used by the claim checks -/

def msgU (s : String) : LLMMessage := { role := Role.user, content := s }

def sysMsg : LLMMessage := { role := Role.system, content := "system prompt" }

def msgs10 : List LLMMessage :=
  [msgU "1", msgU "2", msgU "3", msgU "4", msgU "5",
   msgU "6", msgU "7", msgU "8", msgU "9", msgU "10"]

def mkSession (msgs : List LLMMessage) : Session :=
  { metadata :=
      { key := "cli:direct", created := "t0", updated := "t0",
        messageCount := msgs.length, summary := none },
    messages := msgs }

def s5 : Session := mkSession [msgU "a", msgU "b", msgU "c", msgU "d", msgU "e"]

def s9 : Session :=
  mkSession [msgU "a", msgU "b", msgU "c", msgU "d", msgU "e",
             msgU "f", msgU "g", msgU "h", msgU "i"]

def mkRec (task ts : String) : ExecutionRecord :=
  { task := task, duration := 1000, iterations := 3, toolCalls := 5,
    tokenUsage := 500, outcome := Outcome.success, timestamp := ts }

def recOld : ExecutionRecord := mkRec "alpha beta" "2024-01-01T00:00:00Z"

def recNew : ExecutionRecord := mkRec "alpha beta" "2024-02-01T00:00:00Z"

def chunkS : MemChunkRow :=
  { source := "shared.md", heading := "h", content := "content s",
    updatedAt := 0, bm25 := -1, owner := "shared", scope := "global",
    scopeId := none }

def chunkU : MemChunkRow :=
  { source := "wt.md", heading := "h", content := "content u",
    updatedAt := 0, bm25 := -1, owner := "wt", scope := "user",
    scopeId := some "wt" }

def chunkM : MemChunkRow :=
  { source := "monika.md", heading := "h", content := "content m",
    updatedAt := 0, bm25 := -1, owner := "monika", scope := "user",
    scopeId := some "monika" }

def chunkNew : MemChunkRow :=
  { source := "notes.md", heading := "new", content := "n",
    updatedAt := 2592000000, bm25 := -1, owner := "shared",
    scope := "global", scopeId := none }

def chunkOld : MemChunkRow :=
  { source := "notes.md", heading := "old", content := "o",
    updatedAt := 0, bm25 := -1, owner := "shared", scope := "global",
    scopeId := none }

def execTool : ToolImpl Unit := { run := fun _ => Except.ok "ran" }

def denyCtx : ToolCtx := { userToolDeny := some ["exec"] }

/-! ## Theorems -/

/-! ### Helper lemmas -/

theorem length_takeLast {α : Type} (l : List α) (n : ℕ) :
    (takeLast l n).length = min l.length n := by
  simp [takeLast]
  omega

/-! ### Claim C1 -/

/-- Claim C1 (code_bug): the claim (and the inline comment of the source
"drop oldest 50% of remaining messages") say emergency compression
retains exactly the newest ⌈n/2⌉ non-system messages.  The code computes
`kept = nonSystem.slice(Math.max(half, n - 2))`, which for n ≥ 5 keeps
only the newest 2.  At the failing input — a context-overflow error text
and 10 non-system messages — the trigger condition holds, the system
prompt stays at index 0 and the newest messages are kept, but only 2 of
them instead of ⌈10/2⌉ = 5. -/
theorem c1_emergency_compression_code_bug :
    isContextError "maximum context length exceeded" = true ∧
    emergencyCompress (sysMsg :: msgs10) = sysMsg :: [msgU "9", msgU "10"] ∧
    msgs10.length = 10 ∧
    ((emergencyCompress (sysMsg :: msgs10)).drop 1).length = 2 ∧
    ((emergencyCompress (sysMsg :: msgs10)).drop 1).length ≠ (msgs10.length + 1) / 2 := by
  decide

/-! ### Claim C2 -/

/-- Claim C2 counterexample: the claim states the next-run computation
returns `max(now, lastRun ?? now) + v` and in particular
`nextRun > now - 1s` even with an arbitrarily old `lastRun`.  With
`now = 1000000`, `v = 60000` and `lastRun = 0`, the code returns
`some 60000`, which is not `max(now, lastRun) + v = 1060000` and is not
greater than `now - 1000`. -/
theorem c2_every_next_run_counterexample :
    computeNextRunEvery 1000000 60000 (some 0) = some 60000 ∧
    ¬ ((1000000 : ℤ) - 1000 < 60000) ∧
    computeNextRunEvery 1000000 60000 (some 0) ≠ some (max (1000000 : ℤ) 0 + 60000) := by
  decide

/-- Claim C2 amended: for interval `v > 0` the computation returns
`(lastRun ?? now) + v` (without clamping to `now`); the difference
`nextRun - (lastRun ?? now)` always equals `v`; and `nextRun > now - 1s`
does hold in the `lastRun = none` case. -/
theorem c2_every_next_run_amended (now v : ℤ) (lastRun : Option ℤ) (hv : 0 < v) :
    computeNextRunEvery now v lastRun = some (lastRun.getD now + v) ∧
    lastRun.getD now + v - lastRun.getD now = v ∧
    (lastRun = none → now - 1000 < lastRun.getD now + v) := by
  refine ⟨?_, by ring, ?_⟩
  · unfold computeNextRunEvery
    rw [if_neg (by omega)]
  · intro h
    subst h
    simp only [Option.getD_none]
    omega

/-- Claim C2 witness: the amended statement at `now = 0`, `v = 60000`,
`lastRun = none`. -/
theorem c2_every_next_run_witness :
    computeNextRunEvery 0 60000 none = some (Option.getD none 0 + 60000) ∧
    Option.getD (none : Option ℤ) 0 + 60000 - Option.getD (none : Option ℤ) 0 = 60000 ∧
    ((none : Option ℤ) = none → (0 : ℤ) - 1000 < Option.getD (none : Option ℤ) 0 + 60000) :=
  c2_every_next_run_amended 0 60000 none (by decide)

/-! ### Claim C3 -/

/-- Claim C3 counterexample: the claim says summarize truncates to the
last 4 messages and stores the summary for any current message count.
On a 5-message session the `length <= 8` guard of the code returns without
truncating, without storing the summary and without persisting. -/
theorem c3_summarize_counterexample :
    summarize s5 "sum" = (s5, false) ∧
    s5.messages.length = 5 ∧
    (summarize s5 "sum").1.messages.length ≠ 4 ∧
    (summarize s5 "sum").1.metadata.summary ≠ some "sum" := by
  decide

/-- Claim C3 amended: whenever the session holds more than 8 messages,
summarize truncates the log to exactly its last 4 messages, stores the
summary text in the metadata and persists the session; with 8 or fewer
messages it is a no-op. -/
theorem c3_summarize_amended (s : Session) (text : String)
    (h : 8 < s.messages.length) :
    (summarize s text).1.messages = takeLast s.messages 4 ∧
    (summarize s text).1.messages.length = 4 ∧
    (summarize s text).1.metadata.summary = some text ∧
    (summarize s text).2 = true := by
  have hn : ¬ s.messages.length ≤ 8 := by omega
  refine ⟨by simp [summarize, hn], ?_, by simp [summarize, hn], by simp [summarize, hn]⟩
  simp only [summarize, hn, if_false, ite_false]
  rw [length_takeLast]
  omega

/-- Claim C3 witness: the amended statement on a 9-message session. -/
theorem c3_summarize_witness :
    (summarize s9 "sum").1.messages = takeLast s9.messages 4 ∧
    (summarize s9 "sum").1.messages.length = 4 ∧
    (summarize s9 "sum").1.metadata.summary = some "sum" ∧
    (summarize s9 "sum").2 = true :=
  c3_summarize_amended s9 "sum" (by decide)

/-! ### Claim C7 -/

/-- Claim C7 counterexample: the claim says the job-row update and the
cron_runs insert of `executeJob` happen atomically in one explicit
transaction.  The success-path trace issues them as two bare statements;
a crash after the first event leaves the update applied and the insert
missing, so the trace is not atomic. -/
theorem c7_execute_job_not_atomic : ¬ AtomicTrace (executeJobTrace true) := by
  intro h
  rcases h 1 (by decide) with h1 | h1 <;> revert h1 <;> decide

/-- Claim C7 amended: in both the success and the error path the two
statements run as separate implicit transactions — the trace contains no
explicit begin — so each statement individually takes effect and a crash
between them applies the job-row update without the run-row insert. -/
theorem c7_execute_job_trace_amended (ok : Bool) :
    appliedAtCrash (executeJobTrace ok) 1 =
      [if ok then DbStmt.updateJobOk else DbStmt.updateJobErr] ∧
    applied (executeJobTrace ok) =
      [if ok then DbStmt.updateJobOk else DbStmt.updateJobErr,
       if ok then DbStmt.insertRunOk else DbStmt.insertRunErr] ∧
    DbEvent.beginTx ∉ executeJobTrace ok := by
  cases ok <;> decide

/-! ### Claim C5 -/

/-- Claim C5: whenever the injected context carries an allow list missing
the tool name, or a deny list containing it, or the gate pair is set with
a matching pattern and a confirmation that resolves to false, the
registry returns one of its denial strings and never runs the tool body
(`invoked = false`).  The unknown-tool error string covers the case of a
name absent from the registry. -/
theorem c5_registry_denial {A : Type} (tools : List (String × ToolImpl A))
    (gate : Option (GateSpec A)) (ctx : Option ToolCtx) (name : String) (args : A)
    (h : (∃ c al, ctx = some c ∧ c.userToolAllow = some al ∧ name ∉ al) ∨
      (∃ c dl, ctx = some c ∧ c.userToolDeny = some dl ∧ name ∈ dl) ∨
      (∃ g, gate = some g ∧ g.shouldGate name args = true ∧ g.confirmResult = false)) :
    (registryExecute tools gate ctx name args).invoked = false ∧
    ((registryExecute tools gate ctx name args).result =
        unknownToolMsg (tools.map (fun p => p.1)) name ∨
      (registryExecute tools gate ctx name args).result = userDenyMsg name ∨
      ∃ g, gate = some g ∧
        (registryExecute tools gate ctx name args).result =
          gateDenyMsg (g.formatAction name args)) := by
  cases hlk : lookupTool tools name with
  | none =>
    simp [registryExecute, hlk]
  | some tool =>
    rcases h with ⟨c, al, hc, hal, hcon⟩ | ⟨c, dl, hc, hdl, hcon⟩ | ⟨g, hg, hsg, hcf⟩
    · have hA : allowBlocked ctx name = true := by
        subst hc
        simp [allowBlocked, hal, hcon]
      simp [registryExecute, hlk, hA]
    · by_cases hA : allowBlocked ctx name
      · simp [registryExecute, hlk, hA]
      · have hD : denyBlocked ctx name = true := by
          subst hc
          simp [denyBlocked, hdl, hcon]
        simp [registryExecute, hlk, hA, hD]
    · subst hg
      by_cases hA : allowBlocked ctx name
      · simp [registryExecute, hlk, hA]
      · by_cases hD : denyBlocked ctx name
        · simp [registryExecute, hlk, hA, hD]
        · refine ⟨?_, Or.inr (Or.inr ⟨g, rfl, ?_⟩)⟩ <;>
            simp [registryExecute, hlk, hA, hD, hsg, hcf]

/-- Claim C5 witness: a registered `exec` tool, a context whose deny list
contains `exec`; the registry returns the user-denial string and the tool
body never runs. -/
theorem c5_registry_denial_witness :
    (registryExecute [("exec", execTool)] none (some denyCtx) "exec" ()).invoked = false ∧
    ((registryExecute [("exec", execTool)] none (some denyCtx) "exec" ()).result =
        unknownToolMsg ([("exec", execTool)].map (fun p => p.1)) "exec" ∨
      (registryExecute [("exec", execTool)] none (some denyCtx) "exec" ()).result =
        userDenyMsg "exec" ∨
      ∃ g, (none : Option (GateSpec Unit)) = some g ∧
        (registryExecute [("exec", execTool)] none (some denyCtx) "exec" ()).result =
          gateDenyMsg (g.formatAction "exec" ())) :=
  c5_registry_denial [("exec", execTool)] none (some denyCtx) "exec" ()
    (Or.inr (Or.inl ⟨denyCtx, ["exec"], rfl, rfl, by simp⟩))

/-! ### Claim C6 -/

/-- Unrolling of the retry loop when every registry invocation yields a
leading-`Error:` result: the loop consumes all its fuel, invoking the
registry once per unit of fuel and sleeping `500 * attempt` before each
retry. -/
theorem retryGo_all_error (execOnce : ℕ → String)
    (h : ∀ i, startsWithStr (execOnce i) "Error:" = true) :
    ∀ (fuel attempt : ℕ) (r : String) (sleeps : List ℕ),
      startsWithStr r "Error:" = true →
      retryGo execOnce fuel attempt r sleeps =
        ⟨if fuel = 0 then r else execOnce (attempt + fuel - 1), attempt + fuel,
          sleeps ++ (List.range fuel).map (fun k => 500 * (attempt + k))⟩ := by
  intro fuel
  induction fuel with
  | zero =>
    intro attempt r sleeps hr
    simp [retryGo]
  | succ n ih =>
    intro attempt r sleeps hr
    rw [retryGo, if_pos hr, ih (attempt + 1) (execOnce attempt) (sleeps ++ [500 * attempt]) (h attempt)]
    simp only [RetryResult.mk.injEq]
    refine ⟨?_, by omega, ?_⟩
    · rw [if_neg (Nat.succ_ne_zero n)]
      rcases Nat.eq_zero_or_pos n with hn | hn
      · subst hn
        simp
      · rw [if_neg (by omega)]
        congr 1
        omega
    · rw [List.append_assoc, List.range_succ_eq_map]
      congr 1
      simp only [List.map_cons, List.map_map, List.singleton_append, Nat.add_zero]
      congr 1
      apply List.map_congr_left
      intro k _
      simp only [Function.comp]
      omega

/-- Claim C6 counterexample: the claim says the registry is invoked
`1 + toolRetries` times when every attempt yields a leading `Error:`
result.  With `toolRetries = 2` and a tool that always fails, the loop
`for (attempt = 1; attempt < maxRetries && ...; attempt++)` performs one
retry, so the registry runs 2 times, not 3. -/
theorem c6_tool_retry_counterexample :
    runToolRetries 2 (fun _ => "Error: boom") =
      { result := "Error: boom", invocations := 2, sleeps := [500] } ∧
    (runToolRetries 2 (fun _ => "Error: boom")).invocations ≠ 1 + 2 := by
  decide

/-- Claim C6 amended: when every attempt yields a leading-`Error:`
result, the loop retries up to `toolRetries - 1` times after the initial
attempt, sleeping `500ms × attempt` before each retry, so the registry
is invoked `max(toolRetries, 1)` times in total, and the (truncated)
final result becomes the tool-result message content. -/
theorem c6_tool_retry_amended (maxRetries : ℕ) (execOnce : ℕ → String)
    (h : ∀ i, startsWithStr (execOnce i) "Error:" = true) :
    runToolRetries maxRetries execOnce =
      { result := execOnce (max maxRetries 1 - 1),
        invocations := max maxRetries 1,
        sleeps := (List.range (max maxRetries 1 - 1)).map (fun k => 500 * (k + 1)) } ∧
    toolResultContent maxRetries execOnce =
      truncateToolResult (execOnce (max maxRetries 1 - 1)) := by
  have h0 := retryGo_all_error execOnce h (maxRetries - 1) 1 (execOnce 0) [] (h 0)
  have hrun : runToolRetries maxRetries execOnce =
      { result := execOnce (max maxRetries 1 - 1),
        invocations := max maxRetries 1,
        sleeps := (List.range (max maxRetries 1 - 1)).map (fun k => 500 * (k + 1)) } := by
    rw [runToolRetries, h0]
    simp only [RetryResult.mk.injEq, List.nil_append]
    refine ⟨?_, by omega, ?_⟩
    · rcases Nat.eq_zero_or_pos (maxRetries - 1) with hm | hm
      · rw [if_pos hm]
        congr 1
        omega
      · rw [if_neg (by omega)]
        congr 1
        omega
    · have hme : maxRetries - 1 = max maxRetries 1 - 1 := by omega
      rw [hme]
      apply List.map_congr_left
      intro k _
      omega
  exact ⟨hrun, by rw [toolResultContent, hrun]⟩

/-- Claim C6 witness: the amended statement at `toolRetries = 2` with a
constant failing tool. -/
theorem c6_tool_retry_witness :
    runToolRetries 2 (fun _ => "Error: x") =
      { result := (fun _ : ℕ => "Error: x") (max 2 1 - 1),
        invocations := max 2 1,
        sleeps := (List.range (max 2 1 - 1)).map (fun k => 500 * (k + 1)) } ∧
    toolResultContent 2 (fun _ => "Error: x") =
      truncateToolResult ((fun _ : ℕ => "Error: x") (max 2 1 - 1)) :=
  c6_tool_retry_amended 2 (fun _ => "Error: x")
    (fun i => by
      show startsWithStr "Error: x" "Error:" = true
      decide)

/-! ### Claims C9 and C10 -/

/-- Transitivity of the descending score comparator. -/
theorem scoreDescLe_trans (a b c : ScoredRec) :
    scoreDescLe a b → scoreDescLe b c → scoreDescLe a c := by
  simp only [scoreDescLe, decide_eq_true_eq]
  omega

/-- Totality of the descending score comparator. -/
theorem scoreDescLe_total (a b : ScoredRec) :
    scoreDescLe a b || scoreDescLe b a := by
  simp only [scoreDescLe]
  rcases Nat.le_total b.score a.score with h | h <;> simp [h]

/-- Stability of `findSimilar`: two records appearing in that order in
storage, with equal positive overlap scores, keep their relative order in
the ranking — the stable sort never swaps equal scores. -/
theorem pair_sublist_ranking (task : String) (records : List ExecutionRecord)
    (ro rn : ExecutionRecord)
    (hsub : List.Sublist [ro, rn] records)
    (heq : overlapWith task ro = overlapWith task rn)
    (hpos : 0 < overlapWith task ro) :
    List.Sublist [ro, rn] (findSimilarRanking task records) := by
  have heq2 : computeOverlap (extractKeywords task) (extractKeywords ro.task) =
      computeOverlap (extractKeywords task) (extractKeywords rn.task) := heq
  have hpos2 : 0 < computeOverlap (extractKeywords task) (extractKeywords ro.task) := hpos
  have hmap := hsub.map
    (fun r => ScoredRec.mk (computeOverlap (extractKeywords task) (extractKeywords r.task)) r)
  simp only [List.map_cons, List.map_nil] at hmap
  have hfil := List.Sublist.filter (fun s => decide (0 < s.score)) hmap
  have hb1 : decide (0 < computeOverlap (extractKeywords task) (extractKeywords ro.task)) = true :=
    decide_eq_true hpos2
  have hb2 : decide (0 < computeOverlap (extractKeywords task) (extractKeywords rn.task)) = true :=
    decide_eq_true (heq2 ▸ hpos2)
  simp only [List.filter_cons, List.filter_nil, hb1, hb2, if_true] at hfil
  have hab : scoreDescLe
      (ScoredRec.mk (computeOverlap (extractKeywords task) (extractKeywords ro.task)) ro)
      (ScoredRec.mk (computeOverlap (extractKeywords task) (extractKeywords rn.task)) rn) := by
    simp [scoreDescLe, heq2]
  have hms := List.pair_sublist_mergeSort scoreDescLe_trans scoreDescLe_total hab hfil
  have hout := hms.map (fun s => s.record)
  simp only [List.map_cons, List.map_nil] at hout
  exact hout

/-- Claim C9 counterexample: the claim says ties in overlap are broken
by recency.  Two stored records with equal positive overlap for the
query `alpha` — `recOld` (timestamp 2024-01-01) stored before `recNew`
(timestamp 2024-02-01), as `getAll` with its `ORDER BY timestamp` returns them —
come back in storage order, so the more recent record does NOT rank
before the older one. -/
theorem c9_tie_order_counterexample :
    findSimilar "alpha" 5 [recOld, recNew] = [recOld, recNew] ∧
    overlapWith "alpha" recOld = overlapWith "alpha" recNew ∧
    0 < overlapWith "alpha" recOld ∧
    recOld.timestamp.toList < recNew.timestamp.toList ∧
    ¬ ((findSimilar "alpha" 5 [recOld, recNew]).indexOf recNew <
        (findSimilar "alpha" 5 [recOld, recNew]).indexOf recOld) := by
  have h1 : ([recOld, recNew].map
      (fun r => ScoredRec.mk (computeOverlap (extractKeywords "alpha") (extractKeywords r.task)) r)).filter
        (fun s => decide (0 < s.score)) =
      [ScoredRec.mk 1 recOld, ScoredRec.mk 1 recNew] := by
    decide
  have h2 : ([ScoredRec.mk 1 recOld, ScoredRec.mk 1 recNew]).mergeSort scoreDescLe =
      [ScoredRec.mk 1 recOld, ScoredRec.mk 1 recNew] :=
    List.mergeSort_of_sorted (by decide)
  have h3 : findSimilarRanking "alpha" [recOld, recNew] = [recOld, recNew] := by
    show ((([recOld, recNew].map
        (fun r => ScoredRec.mk (computeOverlap (extractKeywords "alpha") (extractKeywords r.task)) r)).filter
          (fun s => decide (0 < s.score))).mergeSort scoreDescLe).map (fun s => s.record) =
      [recOld, recNew]
    rw [h1, h2]
    decide
  have hke : (extractKeywords "alpha").isEmpty = false := by decide
  have h4 : findSimilar "alpha" 5 [recOld, recNew] = [recOld, recNew] := by
    simp [findSimilar, hke, h3]
  refine ⟨h4, by decide, by decide, by decide, ?_⟩
  rw [h4]
  decide

/-- Claim C9 amended: `getAll` returns storage in ascending-timestamp
order and the descending sort is stable, so two records with equal
positive overlap keep their storage order: the OLDER record ranks before
the more recent one (ties are broken by storage order, not by recency);
`findSimilar` is the ranking truncated to `limit`. -/
theorem c9_tie_order_amended (task : String) (records : List ExecutionRecord)
    (limit : ℕ) (ro rn : ExecutionRecord)
    (hkw : (extractKeywords task).isEmpty = false)
    (hsub : List.Sublist [ro, rn] records)
    (_hts : ro.timestamp.toList ≤ rn.timestamp.toList)
    (heq : overlapWith task ro = overlapWith task rn)
    (hpos : 0 < overlapWith task ro) :
    List.Sublist [ro, rn] (findSimilarRanking task records) ∧
    findSimilar task limit records = (findSimilarRanking task records).take limit := by
  refine ⟨pair_sublist_ranking task records ro rn hsub heq hpos, ?_⟩
  simp [findSimilar, hkw]

/-- Claim C9 witness: the amended statement at the concrete two-record
store. -/
theorem c9_tie_order_witness :
    List.Sublist [recOld, recNew] (findSimilarRanking "alpha" [recOld, recNew]) ∧
    findSimilar "alpha" 5 [recOld, recNew] =
      (findSimilarRanking "alpha" [recOld, recNew]).take 5 :=
  c9_tie_order_amended "alpha" [recOld, recNew] 5 recOld recNew (by decide)
    (List.Sublist.refl _) (by decide) (by decide) (by decide)

/-- Claim C10: a query with no tokens of length ≥ 3 against a non-empty
store still yields a recommendation: `findSimilar` falls back to the last
`min(n, 10)` records in storage order and `getRecommendations` returns
the rounded aggregate over exactly those records. -/
theorem c10_keyword_fallback (task : String) (records : List ExecutionRecord)
    (hkw : (extractKeywords task).isEmpty = true) (hne : records ≠ []) :
    findSimilar task 10 records = takeLast records 10 ∧
    (takeLast records 10).length = min records.length 10 ∧
    getRecommendations task records =
      some { avgDuration := (jsRound (avgQ ((takeLast records 10).map (fun r => r.duration))) : ℚ)
             avgIterations := round1 (avgQ ((takeLast records 10).map (fun r => r.iterations)))
             avgToolCalls := round1 (avgQ ((takeLast records 10).map (fun r => r.toolCalls)))
             successRate := round2
               ((((takeLast records 10).filter (fun r => r.outcome == Outcome.success)).length : ℚ) /
                 ((takeLast records 10).length : ℚ))
             sampleSize := (takeLast records 10).length } := by
  have h1 : findSimilar task 10 records = takeLast records 10 := by
    simp [findSimilar, hkw]
  have hlen : (takeLast records 10).length = min records.length 10 :=
    length_takeLast records 10
  have hpos : records.length ≠ 0 := by
    intro h0
    exact hne (List.eq_nil_of_length_eq_zero h0)
  have hnz : ¬ (takeLast records 10).length = 0 := by
    rw [hlen]
    omega
  refine ⟨h1, hlen, ?_⟩
  unfold getRecommendations recommendationOf
  rw [h1, if_neg hnz]

/-- Claim C10 witness: the empty query against a one-record store. -/
theorem c10_keyword_fallback_witness :
    findSimilar "" 10 [recOld] = takeLast [recOld] 10 ∧
    (takeLast [recOld] 10).length = min [recOld].length 10 ∧
    getRecommendations "" [recOld] =
      some { avgDuration := (jsRound (avgQ ((takeLast [recOld] 10).map (fun r => r.duration))) : ℚ)
             avgIterations := round1 (avgQ ((takeLast [recOld] 10).map (fun r => r.iterations)))
             avgToolCalls := round1 (avgQ ((takeLast [recOld] 10).map (fun r => r.toolCalls)))
             successRate := round2
               ((((takeLast [recOld] 10).filter (fun r => r.outcome == Outcome.success)).length : ℚ) /
                 ((takeLast [recOld] 10).length : ℚ))
             sampleSize := (takeLast [recOld] 10).length } :=
  c10_keyword_fallback "" [recOld] (by decide) (by simp)

/-! ### Claims C4 and C8 -/

/-- Soundness of the scope filter under a `user` scope: every chunk that
passes is either shared-global or a private chunk owned by the user. -/
theorem visible_userScopeOk (u sid : String) (c : MemChunkRow)
    (h : chunkVisible (some u) ⟨"user", sid⟩ c = true) : userScopeOk u c := by
  unfold chunkVisible at h
  by_cases h1 : (c.owner == "shared" && c.scope == "global") = true
  · left
    simp only [Bool.and_eq_true, beq_iff_eq] at h1
    exact h1
  · rw [if_neg h1] at h
    by_cases hu : u = ""
    · subst hu
      rw [if_neg (by simp [truthyOpt])] at h
      rw [if_neg (by simp)] at h
      exact absurd h (by simp)
    · have hc : ((ScopeFilter.mk "user" sid).kind == "user" && truthyOpt (some u)) = true := by
        simp [truthyOpt, hu]
      rw [if_pos hc] at h
      right
      simp only [Bool.and_eq_true, beq_iff_eq] at h
      tauto

theorem lookupAssoc_mem {m : List (String × ChunkView)} {key : String} {v : ChunkView}
    (h : lookupAssoc m key = some v) : ∃ k, (k, v) ∈ m := by
  induction m with
  | nil => simp [lookupAssoc] at h
  | cons p rest ih =>
    rcases p with ⟨k1, w⟩
    simp only [lookupAssoc] at h
    by_cases hk : (k1 == key) = true
    · rw [if_pos hk] at h
      obtain rfl : w = v := Option.some.inj h
      exact ⟨k1, List.mem_cons_self _ _⟩
    · rw [if_neg hk] at h
      obtain ⟨k, hm⟩ := ih h
      exact ⟨k, List.mem_cons_of_mem _ hm⟩

theorem snd_mem_setChunk {m : List (String × ChunkView)} {key : String} {w : ChunkView}
    {p : String × ChunkView} (h : p ∈ setChunk m key w) :
    p.2 = w ∨ p.2 ∈ m.map Prod.snd := by
  induction m with
  | nil =>
    simp only [setChunk, List.mem_singleton] at h
    left
    rw [h]
  | cons q rest ih =>
    rcases q with ⟨k1, w1⟩
    simp only [setChunk] at h
    by_cases hk : (k1 == key) = true
    · rw [if_pos hk] at h
      rcases List.mem_cons.mp h with h1 | h1
      · left
        rw [h1]
      · right
        simp only [List.map_cons, List.mem_cons]
        right
        exact List.mem_map_of_mem Prod.snd h1
    · rw [if_neg hk] at h
      rcases List.mem_cons.mp h with h1 | h1
      · right
        simp only [List.map_cons, List.mem_cons]
        left
        rw [h1]
      · rcases ih h1 with h2 | h2
        · left
          exact h2
        · right
          simp only [List.map_cons, List.mem_cons]
          right
          exact h2

theorem snd_mem_foldl_setChunk (l : List ChunkView) :
    ∀ (init : List (String × ChunkView)) (p : String × ChunkView),
      p ∈ l.foldl (fun acc c => setChunk acc (keyOf c) c) init →
      p.2 ∈ l ∨ p.2 ∈ init.map Prod.snd := by
  induction l with
  | nil =>
    intro init p h
    right
    exact List.mem_map_of_mem Prod.snd h
  | cons c cs ih =>
    intro init p h
    simp only [List.foldl_cons] at h
    rcases ih (setChunk init (keyOf c) c) p h with h1 | h1
    · left
      exact List.mem_cons_of_mem _ h1
    · rcases List.mem_map.mp h1 with ⟨q, hq, hq2⟩
      rcases snd_mem_setChunk hq with h2 | h2
      · left
        rw [← hq2, h2]
        exact List.mem_cons_self _ _
      · right
        rw [← hq2]
        exact h2

theorem mem_setChunkIfAbsent {m : List (String × ChunkView)} {key : String}
    {v : ChunkView} {p : String × ChunkView} (h : p ∈ setChunkIfAbsent m key v) :
    p ∈ m ∨ p = (key, v) := by
  unfold setChunkIfAbsent at h
  by_cases hk : hasKey m key = true
  · rw [if_pos hk] at h
    exact Or.inl h
  · rw [if_neg hk] at h
    rcases List.mem_append.mp h with h1 | h1
    · exact Or.inl h1
    · right
      simpa using h1

theorem mem_foldl_setChunkIfAbsent (l : List ChunkView) :
    ∀ (init : List (String × ChunkView)) (p : String × ChunkView),
      p ∈ l.foldl (fun acc c => setChunkIfAbsent acc (keyOf c) c) init →
      p.2 ∈ l ∨ p ∈ init := by
  induction l with
  | nil =>
    intro init p h
    right
    exact h
  | cons c cs ih =>
    intro init p h
    simp only [List.foldl_cons] at h
    rcases ih _ p h with h1 | h1
    · left
      exact List.mem_cons_of_mem _ h1
    · rcases mem_setChunkIfAbsent h1 with h2 | h2
      · right
        exact h2
      · left
        rw [h2]
        exact List.mem_cons_self _ _

/-- Every chunk returned by the RRF fusion comes from one of the two
branch result lists. -/
theorem mem_rrfFuse {fts vec : List ChunkView} {limit : ℕ} {v : ChunkView}
    (h : v ∈ rrfFuse fts vec limit) : v ∈ fts ∨ v ∈ vec := by
  simp only [rrfFuse] at h
  rcases List.mem_filterMap.mp h with ⟨p, _, hlk⟩
  rcases lookupAssoc_mem hlk with ⟨k, hkm⟩
  rcases mem_foldl_setChunkIfAbsent vec _ (k, v) hkm with h1 | h1
  · right
    exact h1
  · rcases snd_mem_foldl_setChunk fts [] (k, v) h1 with h3 | h3
    · left
      exact h3
    · simp at h3

/-- Claim C4: under a `user`-scoped search with user id `u`, every chunk
of the keyword-search result and every chunk of the RRF-fused hybrid
result stems from a candidate row satisfying
`(owner = shared ∧ scope = global) ∨ (owner = u ∧ scope = user ∧
scope-id = u)`; in particular a private chunk of another user is never
returned.  The real-valued sorts of both branches are embedded
relationally through `RankedBy`. -/
theorem c4_user_scope_isolation
    (now : ℚ) (limit : ℕ) (u sid : String)
    (cs allRows kwRanked vecRanked : List MemChunkRow) (sim : MemChunkRow → ℝ)
    (hkw : RankedBy (finalScore now) kwRanked (filterByScope cs (some u) (some ⟨"user", sid⟩)))
    (hvec : RankedBy sim vecRanked (filterByScope allRows (some u) (some ⟨"user", sid⟩))) :
    (∀ c ∈ kwRanked.take limit, userScopeOk u c) ∧
    (∀ v ∈ rrfFuse ((kwRanked.take (limit * 2)).map viewOf)
        ((vecRanked.take (limit * 2)).map viewOf) limit,
      ∃ r, userScopeOk u r ∧ viewOf r = v ∧ (r ∈ cs ∨ r ∈ allRows)) := by
  have hkmem : ∀ c ∈ kwRanked, userScopeOk u c ∧ c ∈ cs := by
    intro c hc
    have hin : c ∈ filterByScope cs (some u) (some ⟨"user", sid⟩) := hkw.1.mem_iff.mpr hc
    simp only [filterByScope] at hin
    rcases List.mem_filter.mp hin with ⟨hcs, hvis⟩
    exact ⟨visible_userScopeOk u sid c hvis, hcs⟩
  have hvmem : ∀ c ∈ vecRanked, userScopeOk u c ∧ c ∈ allRows := by
    intro c hc
    have hin : c ∈ filterByScope allRows (some u) (some ⟨"user", sid⟩) := hvec.1.mem_iff.mpr hc
    simp only [filterByScope] at hin
    rcases List.mem_filter.mp hin with ⟨hcs, hvis⟩
    exact ⟨visible_userScopeOk u sid c hvis, hcs⟩
  constructor
  · intro c hc
    exact (hkmem c (List.take_subset _ _ hc)).1
  · intro v hv
    rcases mem_rrfFuse hv with h1 | h1
    · rcases List.mem_map.mp h1 with ⟨r, hr, hrv⟩
      have hrk := hkmem r (List.take_subset _ _ hr)
      exact ⟨r, hrk.1, hrv, Or.inl hrk.2⟩
    · rcases List.mem_map.mp h1 with ⟨r, hr, hrv⟩
      have hrk := hvmem r (List.take_subset _ _ hr)
      exact ⟨r, hrk.1, hrv, Or.inr hrk.2⟩

/-- Score of a non-evergreen chunk whose `updated_at` equals the query
time (age 0) and whose bm25 score is -1. -/
theorem finalScore_fresh (now : ℚ) (c : MemChunkRow)
    (hsrc : (c.source == "MEMORY.md") = false)
    (hup : c.updatedAt = now) (hbm : c.bm25 = -1) : finalScore now c = 1 := by
  simp only [finalScore, decayOf, hsrc, Bool.false_eq_true, if_false, hup, hbm]
  have h0 : ((now - now : ℚ) : ℝ) = 0 := by
    push_cast
    ring
  rw [h0, zero_div, Real.rpow_zero]
  norm_num

/-- Score of a non-evergreen chunk exactly one half-life old with bm25
score -1. -/
theorem finalScore_age_one (now : ℚ) (c : MemChunkRow)
    (hsrc : (c.source == "MEMORY.md") = false)
    (hup : now = c.updatedAt + HALF_LIFE_MS) (hbm : c.bm25 = -1) :
    finalScore now c = 1 / 2 := by
  simp only [finalScore, decayOf, hsrc, Bool.false_eq_true, if_false, hbm]
  have h0 : ((now - c.updatedAt : ℚ) : ℝ) / (HALF_LIFE_MS : ℝ) = 1 := by
    rw [hup]
    have h1 : (c.updatedAt + HALF_LIFE_MS - c.updatedAt : ℚ) = HALF_LIFE_MS := by ring
    rw [h1]
    rw [div_self]
    norm_num [HALF_LIFE_MS]
  rw [h0, Real.rpow_one]
  norm_num

/-- Claim C8: among scope-visible candidates with identical strictly
negative bm25 scores whose update times differ by one 30-day half-life:
when the older chunk is not evergreen, the newer chunk scores strictly
higher and therefore precedes the older one at every position of every
ranking; when the older chunk is `MEMORY.md`, its decay is 1.0 and its
final score is at least that of the newer chunk, so it does not rank behind
it.  (`bm25 < 0` is how FTS5 reports a non-zero keyword match — the
source comments "BM25 returns negative values".) -/
theorem c8_temporal_decay
    (now : ℚ) (cs : List MemChunkRow) (userId : Option String) (scope : Option ScopeFilter)
    (out : List MemChunkRow) (a b : MemChunkRow)
    (hrank : RankedBy (finalScore now) out (filterByScope cs userId scope))
    (_ha : a ∈ filterByScope cs userId scope)
    (_hb : b ∈ filterByScope cs userId scope)
    (hbm : a.bm25 = b.bm25) (hneg : a.bm25 < 0)
    (hage : a.updatedAt = b.updatedAt + HALF_LIFE_MS)
    (hnow : a.updatedAt ≤ now) :
    ((b.source == "MEMORY.md") = false →
      finalScore now b < finalScore now a ∧
      ∀ (i j : ℕ) (hi : i < out.length) (hj : j < out.length),
        out.get ⟨i, hi⟩ = a → out.get ⟨j, hj⟩ = b → i < j) ∧
    ((b.source == "MEMORY.md") = true →
      decayOf now b = 1 ∧ finalScore now a ≤ finalScore now b) := by
  have hHq : (0 : ℚ) < HALF_LIFE_MS := by norm_num [HALF_LIFE_MS]
  have hHr : (0 : ℝ) < (HALF_LIFE_MS : ℝ) := by exact_mod_cast hHq
  have hrq : (0 : ℚ) < -a.bm25 := by linarith
  have hrpos : (0 : ℝ) < ((-a.bm25 : ℚ) : ℝ) := by exact_mod_cast hrq
  have hea_nonneg : (0 : ℝ) ≤ ((now - a.updatedAt : ℚ) : ℝ) / (HALF_LIFE_MS : ℝ) := by
    apply div_nonneg _ (le_of_lt hHr)
    have h1 : (0 : ℚ) ≤ now - a.updatedAt := by linarith
    exact_mod_cast h1
  have hlt : ((now - a.updatedAt : ℚ) : ℝ) / (HALF_LIFE_MS : ℝ) <
      ((now - b.updatedAt : ℚ) : ℝ) / (HALF_LIFE_MS : ℝ) := by
    rw [div_lt_div_iff_of_pos_right hHr]
    have h1 : (now - a.updatedAt : ℚ) < now - b.updatedAt := by linarith
    exact_mod_cast h1
  have heb_pos : (0 : ℝ) < ((now - b.updatedAt : ℚ) : ℝ) / (HALF_LIFE_MS : ℝ) :=
    lt_of_le_of_lt hea_nonneg hlt
  have hstrict : (b.source == "MEMORY.md") = false → finalScore now b < finalScore now a := by
    intro hbev
    have hdb : decayOf now b < decayOf now a := by
      by_cases haev : (a.source == "MEMORY.md") = true
      · simp only [decayOf, hbev, haev, Bool.false_eq_true, if_false, if_true]
        exact Real.rpow_lt_one (by norm_num) (by norm_num) heb_pos
      · have haev2 : (a.source == "MEMORY.md") = false := by simpa using haev
        simp only [decayOf, hbev, haev2, Bool.false_eq_true, if_false]
        exact Real.rpow_lt_rpow_of_exponent_gt (by norm_num) (by norm_num) hlt
    simp only [finalScore]
    rw [← hbm]
    exact mul_lt_mul_of_pos_left hdb hrpos
  refine ⟨fun hbev => ⟨hstrict hbev, ?_⟩,
    fun hbev => ⟨by simp [decayOf, hbev], ?_⟩⟩
  · intro i j hi hj hia hjb
    have hs := hstrict hbev
    rcases Nat.lt_trichotomy i j with h | h | h
    · exact h
    · exfalso
      subst h
      have hab : a = b := by
        rw [← hia, ← hjb]
      rw [hab] at hs
      exact lt_irrefl _ hs
    · exfalso
      have hp := List.pairwise_iff_get.mp hrank.2 ⟨j, hj⟩ ⟨i, hi⟩ h
      rw [hia, hjb] at hp
      linarith
  · have hda : decayOf now a ≤ 1 := by
      by_cases haev : (a.source == "MEMORY.md") = true
      · simp [decayOf, haev]
      · have haev2 : (a.source == "MEMORY.md") = false := by simpa using haev
        simp only [decayOf, haev2, Bool.false_eq_true, if_false]
        exact Real.rpow_le_one (by norm_num) (by norm_num) hea_nonneg
    have hdb1 : decayOf now b = 1 := by simp [decayOf, hbev]
    simp only [finalScore]
    rw [← hbm, hdb1, mul_one]
    have h2 := mul_le_mul_of_nonneg_left hda (le_of_lt hrpos)
    simpa using h2

/-- Claim C8 witness: concrete two-chunk candidate set, older chunk one
half-life older, equal bm25 = -1, no scope filter. -/
theorem c8_temporal_decay_witness :
    ((chunkOld.source == "MEMORY.md") = false →
      finalScore 2592000000 chunkOld < finalScore 2592000000 chunkNew ∧
      ∀ (i j : ℕ) (hi : i < ([chunkNew, chunkOld] : List MemChunkRow).length)
        (hj : j < ([chunkNew, chunkOld] : List MemChunkRow).length),
        ([chunkNew, chunkOld] : List MemChunkRow).get ⟨i, hi⟩ = chunkNew →
        ([chunkNew, chunkOld] : List MemChunkRow).get ⟨j, hj⟩ = chunkOld → i < j) ∧
    ((chunkOld.source == "MEMORY.md") = true →
      decayOf 2592000000 chunkOld = 1 ∧
      finalScore 2592000000 chunkNew ≤ finalScore 2592000000 chunkOld) := by
  have h1 : finalScore 2592000000 chunkNew = 1 :=
    finalScore_fresh 2592000000 chunkNew (by decide) rfl rfl
  have h2 : finalScore 2592000000 chunkOld = 1 / 2 :=
    finalScore_age_one 2592000000 chunkOld (by decide)
      (by norm_num [chunkOld, HALF_LIFE_MS]) rfl
  apply c8_temporal_decay 2592000000 [chunkNew, chunkOld] none none
    [chunkNew, chunkOld] chunkNew chunkOld
  · refine ⟨List.Perm.refl _, ?_⟩
    refine List.Pairwise.cons ?_ (List.pairwise_singleton _ _)
    intro y hy
    obtain rfl := List.mem_singleton.mp hy
    rw [h1, h2]
    norm_num
  · exact List.mem_cons_self _ _
  · show chunkOld ∈ [chunkNew, chunkOld]
    simp
  · rfl
  · show (-1 : ℚ) < 0
    norm_num
  · show (2592000000 : ℚ) = 0 + HALF_LIFE_MS
    norm_num [HALF_LIFE_MS]
  · show (2592000000 : ℚ) ≤ 2592000000
    exact le_refl _

/-- Claim C4 witness: the scenario of the spec — candidates S(shared, global),
U(wt, user, wt), M(monika, user, monika), searched with
scope = (user, wt); the ranking is over the filtered list [S, U]. -/
theorem c4_user_scope_isolation_witness :
    (∀ c ∈ ([chunkS, chunkU] : List MemChunkRow).take 5, userScopeOk "wt" c) ∧
    (∀ v ∈ rrfFuse ((([chunkS, chunkU] : List MemChunkRow).take (5 * 2)).map viewOf)
        ((([] : List MemChunkRow).take (5 * 2)).map viewOf) 5,
      ∃ r, userScopeOk "wt" r ∧ viewOf r = v ∧
        (r ∈ [chunkS, chunkU, chunkM] ∨ r ∈ ([] : List MemChunkRow))) := by
  have hS : finalScore 0 chunkS = 1 := finalScore_fresh 0 chunkS (by decide) rfl rfl
  have hU : finalScore 0 chunkU = 1 := finalScore_fresh 0 chunkU (by decide) rfl rfl
  apply c4_user_scope_isolation 0 5 "wt" "wt" [chunkS, chunkU, chunkM] []
    [chunkS, chunkU] [] (fun _ => 0)
  · have hfeq : filterByScope [chunkS, chunkU, chunkM] (some "wt")
        (some ⟨"user", "wt"⟩) = [chunkS, chunkU] := by decide
    rw [RankedBy, hfeq]
    refine ⟨List.Perm.refl _, ?_⟩
    refine List.Pairwise.cons ?_ (List.pairwise_singleton _ _)
    intro y hy
    obtain rfl := List.mem_singleton.mp hy
    rw [hS, hU]
  · exact ⟨List.Perm.refl _, List.Pairwise.nil⟩

end Janus
